import Mathlib

/-!
Verification of the Weedr scan pipeline (`app.py`).

The Python source is shallowly embedded: pure string manipulation is
modelled on `List Char` / `String`, the pandas ratings table as a list of
records, marketplace pages as lists of parsed page items, and the mutable
module state `STATE` as an explicit state record threaded through the
orchestrator.  Network and file I/O are abstracted as parameters (a
marketplace client is a function that may fail, returning `Except`).
-/

namespace Weedr

/-! ### Python string primitives

`norm` in the source is `" ".join(str(s).split()).strip().lower()`.
`str.split()` splits on runs of whitespace discarding empty pieces,
`str.strip()` removes leading/trailing whitespace, `str.lower()` /
`str.upper()` change letter case (modelled for the ASCII range).
-/

/-- Whitespace characters recognised by Python `str.split()` / `str.strip()`
(ASCII range: space, tab, newline, carriage return, vertical tab, form feed). -/
def isPySpace (c : Char) : Bool :=
  c.toNat = 32 || c.toNat = 9 || c.toNat = 10 || c.toNat = 13 || c.toNat = 11 || c.toNat = 12

/-- Python `str.lower()` on one character (ASCII letters). -/
def lowerChar (c : Char) : Char :=
  if 65 ≤ c.toNat ∧ c.toNat ≤ 90 then Char.ofNat (c.toNat + 32) else c

/-- Python `str.upper()` on one character (ASCII letters). -/
def upperChar (c : Char) : Char :=
  if 97 ≤ c.toNat ∧ c.toNat ≤ 122 then Char.ofNat (c.toNat - 32) else c

theorem length_dropWhile_le {α : Type} (p : α → Bool) (l : List α) :
    (l.dropWhile p).length ≤ l.length :=
  (List.dropWhile_suffix p).length_le

/-- Single-pass worker for `pySplit`: `acc` is the current word, reversed. -/
def pySplitAux : List Char → List Char → List (List Char)
  | [], acc => if acc = [] then [] else [acc.reverse]
  | c :: cs, acc =>
    if isPySpace c then
      if acc = [] then pySplitAux cs [] else acc.reverse :: pySplitAux cs []
    else pySplitAux cs (c :: acc)

/-- Python `str.split()` (no separator argument): split on runs of
whitespace, returning the non-empty words in order. -/
def pySplit (l : List Char) : List (List Char) :=
  pySplitAux l []

/-- Python `str.strip()`: drop leading and trailing whitespace. -/
def pyStripL (l : List Char) : List Char :=
  ((l.dropWhile isPySpace).reverse.dropWhile isPySpace).reverse

/-- Python `str.lower()` on a string (as a character list). -/
def pyLowerL (l : List Char) : List Char := l.map lowerChar

/-- Python `str.upper()` on a string (as a character list). -/
def pyUpperL (l : List Char) : List Char := l.map upperChar

/-- Python `" ".join(ws)`. -/
def joinWords : List (List Char) → List Char
  | [] => []
  | [w] => w
  | w :: ws => w ++ (' ' :: joinWords ws)

/-- `norm` from the source: `" ".join(str(s).split()).strip().lower()`,
on character lists. -/
def normL (l : List Char) : List Char :=
  pyLowerL (pyStripL (joinWords (pySplit l)))

/-- String-level wrappers for the Python primitives. -/
def pyStrip (s : String) : String := ⟨pyStripL s.data⟩

/-- Python `str.lower()` on a `String`. -/
def pyLower (s : String) : String := ⟨pyLowerL s.data⟩

/-- Python `str.upper()` on a `String`. -/
def pyUpper (s : String) : String := ⟨pyUpperL s.data⟩

/-- `norm` from the source, on `String`. -/
def norm (s : String) : String := ⟨normL s.data⟩

/-! ### Lemmas about the string primitives -/

theorem bool_ext {a b : Bool} (h : a = true ↔ b = true) : a = b := by
  cases a <;> cases b <;> simp_all

theorem char_toNat_ofNat {n : Nat} (h : n < 55296) : (Char.ofNat n).toNat = n := by
  rw [Char.ofNat, dif_pos (Or.inl h)]
  simp [Char.ofNatAux, Char.toNat, UInt32.toNat]

theorem isPySpace_iff (c : Char) :
    isPySpace c = true ↔
      (c.toNat = 32 ∨ c.toNat = 9 ∨ c.toNat = 10 ∨ c.toNat = 13 ∨
        c.toNat = 11 ∨ c.toNat = 12) := by
  simp only [isPySpace, Bool.or_eq_true, decide_eq_true_eq]
  tauto

theorem char_toNat_lt (c : Char) : c.toNat < 1114112 := by
  have h := c.valid
  rcases h with h | h
  · exact Nat.lt_trans h (by decide)
  · exact h.2

theorem lowerChar_toNat (c : Char) :
    (lowerChar c).toNat =
      if 65 ≤ c.toNat ∧ c.toNat ≤ 90 then c.toNat + 32 else c.toNat := by
  unfold lowerChar
  split
  · next h => rw [char_toNat_ofNat (by omega)]
  · rfl

theorem lowerChar_idem (c : Char) : lowerChar (lowerChar c) = lowerChar c := by
  by_cases h : 65 ≤ c.toNat ∧ c.toNat ≤ 90
  · have h1 : lowerChar c = Char.ofNat (c.toNat + 32) := if_pos h
    rw [h1]
    unfold lowerChar
    rw [if_neg (by rw [char_toNat_ofNat (by omega)]; omega)]
  · have h1 : lowerChar c = c := if_neg h
    rw [h1]
    exact h1

theorem isPySpace_lowerChar (c : Char) : isPySpace (lowerChar c) = isPySpace c := by
  apply bool_ext
  rw [isPySpace_iff, isPySpace_iff, lowerChar_toNat]
  by_cases hc : 65 ≤ c.toNat ∧ c.toNat ≤ 90
  · rw [if_pos hc]; omega
  · rw [if_neg hc]

theorem pySplit_nil : pySplit [] = [] := rfl

theorem pySplitAux_nil (acc : List Char) :
    pySplitAux [] acc = if acc = [] then [] else [acc.reverse] := rfl

theorem pySplitAux_cons_space {c : Char} (h : isPySpace c = true) (cs acc : List Char) :
    pySplitAux (c :: cs) acc =
      if acc = [] then pySplitAux cs [] else acc.reverse :: pySplitAux cs [] := by
  simp [pySplitAux, h]

theorem pySplitAux_cons_word {c : Char} (h : isPySpace c = false) (cs acc : List Char) :
    pySplitAux (c :: cs) acc = pySplitAux cs (c :: acc) := by
  simp [pySplitAux, h]

theorem pySplit_cons_space {c : Char} {cs : List Char} (h : isPySpace c = true) :
    pySplit (c :: cs) = pySplit cs := by
  show pySplitAux (c :: cs) [] = pySplitAux cs []
  rw [pySplitAux_cons_space h, if_pos rfl]

/-- The in-progress word is always flushed as `acc.reverse ++ current-word`. -/
theorem pySplitAux_word {acc : List Char} (hacc : acc ≠ []) :
    ∀ (l : List Char), pySplitAux l acc =
      (acc.reverse ++ l.takeWhile (fun d => !isPySpace d)) ::
        pySplit (l.dropWhile (fun d => !isPySpace d))
  | [] => by
    rw [pySplitAux_nil, if_neg hacc]
    simp [pySplit_nil]
  | c :: cs => by
    by_cases h : isPySpace c = true
    · rw [pySplitAux_cons_space h, if_neg hacc]
      rw [List.takeWhile_cons_of_neg (by simp [h]), List.dropWhile_cons_of_neg (by simp [h])]
      rw [List.append_nil, pySplit_cons_space h]
      rfl
    · have h' : isPySpace c = false := by simpa using h
      rw [pySplitAux_cons_word h', pySplitAux_word (by simp) cs]
      rw [List.takeWhile_cons_of_pos (by simp [h']), List.dropWhile_cons_of_pos (by simp [h'])]
      rw [List.reverse_cons, List.append_assoc]
      rfl

theorem pySplit_cons_word {c : Char} {cs : List Char} (h : isPySpace c = false) :
    pySplit (c :: cs) =
      (c :: cs.takeWhile (fun d => !isPySpace d)) ::
        pySplit (cs.dropWhile (fun d => !isPySpace d)) := by
  show pySplitAux (c :: cs) [] = _
  rw [pySplitAux_cons_word h, pySplitAux_word (by simp) cs]
  rfl

/-- Every word produced by `pySplit` is non-empty and whitespace-free. -/
theorem pySplit_spec : ∀ (l : List Char), ∀ w ∈ pySplit l, w ≠ [] ∧ ∀ c ∈ w, isPySpace c = false
  | [] => by simp [pySplit_nil]
  | c :: cs => by
    by_cases h : isPySpace c = true
    · rw [pySplit_cons_space h]
      exact pySplit_spec cs
    · have h' : isPySpace c = false := by simpa using h
      rw [pySplit_cons_word h']
      intro w hw
      rcases List.mem_cons.mp hw with rfl | hw'
      · refine ⟨by simp, ?_⟩
        intro d hd
        rcases List.mem_cons.mp hd with rfl | hd'
        · exact h'
        · have hmem := List.mem_takeWhile_imp hd'
          simpa using hmem
      · exact pySplit_spec (cs.dropWhile (fun d => !isPySpace d)) w hw'
termination_by l => l.length
decreasing_by
  · simp
  · have := length_dropWhile_le (fun d => !isPySpace d) cs
    simp
    omega

theorem joinWords_cons_cons (w x : List Char) (ws : List (List Char)) :
    joinWords (w :: x :: ws) = w ++ (' ' :: joinWords (x :: ws)) := rfl

theorem joinWords_ne_nil : ∀ (ws : List (List Char)), ws ≠ [] → (∀ w ∈ ws, w ≠ []) → joinWords ws ≠ []
  | [], h, _ => absurd rfl h
  | [w], _, hw => by
    have := hw w (by simp)
    simpa [joinWords] using this
  | w :: x :: ws, _, hw => by
    rw [joinWords_cons_cons]
    have := hw w (by simp)
    simp [this]

theorem dropWhile_eq_self_of {p : Char → Bool} :
    ∀ {l : List Char}, (∀ c, l.head? = some c → p c = false) → l.dropWhile p = l
  | [], _ => rfl
  | c :: cs, h => by
    rw [List.dropWhile_cons_of_neg]
    simp [h c rfl]

theorem pyStripL_eq_self {l : List Char}
    (h1 : ∀ c, l.head? = some c → isPySpace c = false)
    (h2 : ∀ c, l.getLast? = some c → isPySpace c = false) : pyStripL l = l := by
  unfold pyStripL
  rw [dropWhile_eq_self_of h1]
  rw [dropWhile_eq_self_of (by simpa using h2)]
  exact List.reverse_reverse l

/-- Abbreviation for the well-formedness of a word list produced by `pySplit`. -/
def WordsOK (ws : List (List Char)) : Prop :=
  ∀ w ∈ ws, w ≠ [] ∧ ∀ c ∈ w, isPySpace c = false

theorem joinWords_head? (ws : List (List Char)) (h : WordsOK ws) :
    ∀ c, (joinWords ws).head? = some c → isPySpace c = false := by
  match ws with
  | [] => intro c hc; simp [joinWords] at hc
  | [w] =>
    intro c hc
    have hw := h w (by simp)
    exact hw.2 c (List.mem_of_mem_head? (by simpa [joinWords] using hc))
  | w :: x :: ws =>
    intro c hc
    rw [joinWords_cons_cons] at hc
    have hw := h w (by simp)
    rw [List.head?_append] at hc
    rcases hw with ⟨hne, hsp⟩
    cases hw' : w.head? with
    | none => exact absurd (List.head?_eq_none_iff.mp hw') hne
    | some d =>
      rw [hw', Option.or] at hc
      exact hsp c (List.mem_of_mem_head? (by rw [hw']; exact hc))

theorem joinWords_getLast? (ws : List (List Char)) (h : WordsOK ws) :
    ∀ c, (joinWords ws).getLast? = some c → isPySpace c = false := by
  match ws with
  | [] => intro c hc; simp [joinWords] at hc
  | [w] =>
    intro c hc
    have hw := h w (by simp)
    exact hw.2 c (List.mem_of_mem_getLast? (by simpa [joinWords] using hc))
  | w :: x :: ws =>
    intro c hc
    rw [joinWords_cons_cons] at hc
    have hrest : joinWords (x :: ws) ≠ [] :=
      joinWords_ne_nil (x :: ws) (List.cons_ne_nil x ws) (fun y hy => (h y (by simp [hy])).1)
    have htail : WordsOK (x :: ws) := fun y hy => h y (by simp [hy])
    rw [List.getLast?_append] at hc
    have h2 : (' ' :: joinWords (x :: ws)).getLast? = (joinWords (x :: ws)).getLast? := by
      rw [List.getLast?_cons]
      cases hg : (joinWords (x :: ws)).getLast? with
      | none => exact absurd (List.getLast?_eq_none_iff.mp hg) hrest
      | some d => rfl
    rw [h2] at hc
    cases hg : (joinWords (x :: ws)).getLast? with
    | none => exact absurd (List.getLast?_eq_none_iff.mp hg) hrest
    | some d =>
      rw [hg, Option.or] at hc
      exact joinWords_getLast? (x :: ws) htail c (by rw [hg]; exact hc)

/-- `.strip()` is the identity on `" ".join(words)` output. -/
theorem pyStripL_joinWords (ws : List (List Char)) (h : WordsOK ws) :
    pyStripL (joinWords ws) = joinWords ws :=
  pyStripL_eq_self (joinWords_head? ws h) (joinWords_getLast? ws h)

theorem isPySpace_space : isPySpace ' ' = true := by decide

/-- `pySplit` recovers exactly the words that `" ".join` glued together. -/
theorem pySplit_joinWords : ∀ (ws : List (List Char)), WordsOK ws → pySplit (joinWords ws) = ws
  | [], _ => pySplit_nil
  | [w], h => by
    obtain ⟨hne, hsp⟩ := h w (by simp)
    match w, hne with
    | c :: w', _ =>
      show pySplit (c :: w') = [c :: w']
      rw [pySplit_cons_word (hsp c (by simp))]
      rw [List.takeWhile_eq_self_iff.mpr (fun d hd => by simp [hsp d (by simp [hd])])]
      rw [List.dropWhile_eq_nil_iff.mpr (fun d hd => by simp [hsp d (by simp [hd])])]
      rw [pySplit_nil]
  | w :: x :: ws, h => by
    obtain ⟨hne, hsp⟩ := h w (by simp)
    have htail : WordsOK (x :: ws) := fun y hy => h y (by simp [hy])
    match w, hne with
    | c :: w', _ =>
      rw [joinWords_cons_cons]
      show pySplit (c :: (w' ++ ' ' :: joinWords (x :: ws))) = _
      rw [pySplit_cons_word (hsp c (by simp))]
      have hw' : ∀ d ∈ w', (fun d => !isPySpace d) d = true :=
        fun d hd => by simp [hsp d (by simp [hd])]
      rw [List.takeWhile_append_of_pos hw', List.dropWhile_append_of_pos hw']
      rw [List.takeWhile_cons_of_neg (by simp [isPySpace_space])]
      rw [List.dropWhile_cons_of_neg (by simp [isPySpace_space])]
      rw [pySplit_cons_space isPySpace_space]
      rw [pySplit_joinWords (x :: ws) htail]
      simp

/-- Lowercasing distributes over `" ".join`. -/
theorem pyLowerL_joinWords : ∀ (ws : List (List Char)),
    pyLowerL (joinWords ws) = joinWords (ws.map pyLowerL)
  | [] => rfl
  | [w] => rfl
  | w :: x :: ws => by
    rw [joinWords_cons_cons]
    simp only [List.map_cons]
    rw [joinWords_cons_cons]
    have h2 := pyLowerL_joinWords (x :: ws)
    simp only [pyLowerL, List.map_cons, List.map_append] at h2 ⊢
    rw [show lowerChar ' ' = ' ' from by decide]
    rw [h2]

theorem bang_isPySpace_lowerChar :
    (fun d => !isPySpace d) ∘ lowerChar = (fun d => !isPySpace d) := by
  funext d
  simp [isPySpace_lowerChar]

/-- Lowercasing commutes with `str.split()`. -/
theorem pySplit_pyLowerL : ∀ (l : List Char), pySplit (pyLowerL l) = (pySplit l).map pyLowerL
  | [] => by
    rw [pySplit_nil]
    show pySplit [] = ([] : List (List Char))
    exact pySplit_nil
  | c :: cs => by
    by_cases h : isPySpace c = true
    · have hc : isPySpace (lowerChar c) = true := by rw [isPySpace_lowerChar]; exact h
      show pySplit (lowerChar c :: pyLowerL cs) = _
      rw [pySplit_cons_space hc, pySplit_cons_space h]
      exact pySplit_pyLowerL cs
    · have h' : isPySpace c = false := by simpa using h
      have hc : isPySpace (lowerChar c) = false := by rw [isPySpace_lowerChar]; exact h'
      have ih := pySplit_pyLowerL (cs.dropWhile (fun d => !isPySpace d))
      show pySplit (lowerChar c :: pyLowerL cs) = _
      rw [pySplit_cons_word hc, pySplit_cons_word h']
      simp only [pyLowerL] at ih ⊢
      rw [List.takeWhile_map, List.dropWhile_map, bang_isPySpace_lowerChar, ih]
      simp [pyLowerL]
termination_by l => l.length
decreasing_by
  all_goals simp
  all_goals
    have h9 := length_dropWhile_le (fun d => !isPySpace d) cs
    omega

theorem wordsOK_pySplit (l : List Char) : WordsOK (pySplit l) :=
  pySplit_spec l

theorem pyLowerL_ne_nil {w : List Char} (h : w ≠ []) : pyLowerL w ≠ [] := by
  simpa [pyLowerL] using h

theorem wordsOK_map_pyLowerL {ws : List (List Char)} (h : WordsOK ws) :
    WordsOK (ws.map pyLowerL) := by
  intro w' hw'
  obtain ⟨w, hw, rfl⟩ := List.mem_map.mp hw'
  obtain ⟨hne, hsp⟩ := h w hw
  refine ⟨pyLowerL_ne_nil hne, ?_⟩
  intro c hc
  obtain ⟨d, hd, rfl⟩ := List.mem_map.mp hc
  rw [isPySpace_lowerChar]
  exact hsp d hd

theorem pyLowerL_idem (w : List Char) : pyLowerL (pyLowerL w) = pyLowerL w := by
  simp only [pyLowerL, List.map_map]
  exact List.map_congr_left (fun c _ => lowerChar_idem c)

/-- Master characterisation: `norm` is join-of-lowercased-words. -/
theorem normL_eq (l : List Char) :
    normL l = joinWords ((pySplit l).map pyLowerL) := by
  unfold normL
  rw [pyStripL_joinWords (pySplit l) (wordsOK_pySplit l)]
  exact pyLowerL_joinWords (pySplit l)

theorem normL_idem (l : List Char) : normL (normL l) = normL l := by
  rw [normL_eq l, normL_eq]
  rw [pySplit_joinWords ((pySplit l).map pyLowerL) (wordsOK_map_pyLowerL (wordsOK_pySplit l))]
  rw [List.map_map]
  congr 1
  exact List.map_congr_left (fun w _ => pyLowerL_idem w)

theorem normL_eq_of_split_lower {s t : List Char}
    (h : (pySplit s).map pyLowerL = (pySplit t).map pyLowerL) : normL s = normL t := by
  rw [normL_eq s, normL_eq t, h]

theorem getLast?_dropWhile {p : Char → Bool} {y : List Char} (h : y.dropWhile p ≠ []) :
    (y.dropWhile p).getLast? = y.getLast? := by
  obtain ⟨t, ht⟩ := (List.dropWhile_suffix p : y.dropWhile p <:+ y)
  conv_rhs => rw [← ht]
  rw [List.getLast?_append]
  cases hg : (y.dropWhile p).getLast? with
  | none => exact absurd (List.getLast?_eq_none_iff.mp hg) h
  | some d => rfl

theorem head?_pyStripL (l : List Char) :
    ∀ c, (pyStripL l).head? = some c → isPySpace c = false := by
  intro c hc
  unfold pyStripL at hc
  rw [List.head?_reverse] at hc
  by_cases hx : (l.dropWhile isPySpace).reverse.dropWhile isPySpace = []
  · rw [hx] at hc
    simp at hc
  · rw [getLast?_dropWhile hx, List.getLast?_reverse] at hc
    have h2 := List.head?_dropWhile_not isPySpace l
    rw [hc] at h2
    exact h2

theorem getLast?_pyStripL (l : List Char) :
    ∀ c, (pyStripL l).getLast? = some c → isPySpace c = false := by
  intro c hc
  unfold pyStripL at hc
  rw [List.getLast?_reverse] at hc
  have h2 := List.head?_dropWhile_not isPySpace (l.dropWhile isPySpace).reverse
  rw [hc] at h2
  exact h2

theorem pyStripL_idem (l : List Char) : pyStripL (pyStripL l) = pyStripL l :=
  pyStripL_eq_self (head?_pyStripL l) (getLast?_pyStripL l)

theorem pySplit_all_space : ∀ {l : List Char}, (∀ c ∈ l, isPySpace c = true) → pySplit l = []
  | [], _ => pySplit_nil
  | c :: cs, h => by
    rw [pySplit_cons_space (h c (by simp))]
    exact pySplit_all_space (fun d hd => h d (by simp [hd]))

theorem all_space_of_pySplit_nil : ∀ (l : List Char), pySplit l = [] → ∀ c ∈ l, isPySpace c = true
  | [] => by simp
  | c :: cs => by
    intro hl d hd
    by_cases h : isPySpace c = true
    · rw [pySplit_cons_space h] at hl
      rcases List.mem_cons.mp hd with rfl | hd'
      · exact h
      · exact all_space_of_pySplit_nil cs hl d hd'
    · rw [pySplit_cons_word (by simpa using h)] at hl
      exact absurd hl (by simp)
termination_by l => l.length
decreasing_by
  simp

/-- Leading whitespace does not affect `str.split()`. -/
theorem pySplit_dropWhile (l : List Char) :
    pySplit (l.dropWhile isPySpace) = pySplit l := by
  induction l with
  | nil => rfl
  | cons c cs ih =>
    by_cases h : isPySpace c = true
    · rw [List.dropWhile_cons_of_pos h, pySplit_cons_space h]
      exact ih
    · rw [List.dropWhile_cons_of_neg (by simp [h])]

/-- Trailing whitespace does not affect `str.split()`. -/
theorem pySplit_append_spaces :
    ∀ (l s : List Char), (∀ c ∈ s, isPySpace c = true) → pySplit (l ++ s) = pySplit l
  | [], s, hs => by
    rw [List.nil_append, pySplit_all_space hs, pySplit_nil]
  | c :: cs, s, hs => by
    by_cases h : isPySpace c = true
    · rw [List.cons_append, pySplit_cons_space h, pySplit_cons_space h]
      exact pySplit_append_spaces cs s hs
    · have h' : isPySpace c = false := by simpa using h
      rw [List.cons_append, pySplit_cons_word h', pySplit_cons_word h']
      by_cases hall : ∀ d ∈ cs, (fun d => !isPySpace d) d = true
      · rw [List.takeWhile_append_of_pos hall, List.dropWhile_append_of_pos hall]
        have hts : s.takeWhile (fun d => !isPySpace d) = [] := by
          cases s with
          | nil => rfl
          | cons a as =>
            rw [List.takeWhile_cons_of_neg]
            simp [hs a (by simp)]
        have hds : s.dropWhile (fun d => !isPySpace d) = s := by
          apply dropWhile_eq_self_of
          intro a ha
          have ham : a ∈ s := List.mem_of_mem_head? (Option.mem_def.mpr ha)
          simp [hs a ham]
        rw [hts, hds, List.append_nil]
        rw [List.takeWhile_eq_self_iff.mpr hall, List.dropWhile_eq_nil_iff.mpr hall]
        rw [pySplit_all_space hs, pySplit_nil]
      · have hne : cs.dropWhile (fun d => !isPySpace d) ≠ [] := by
          intro hnil
          exact hall (List.dropWhile_eq_nil_iff.mp hnil)
        have htk : (cs ++ s).takeWhile (fun d => !isPySpace d) =
            cs.takeWhile (fun d => !isPySpace d) := by
          rw [List.takeWhile_append]
          rw [if_neg]
          intro hlen
          have heq := (List.takeWhile_prefix (fun d => !isPySpace d) :
            cs.takeWhile (fun d => !isPySpace d) <+: cs).eq_of_length hlen
          apply hall
          intro d hd
          rw [← heq] at hd
          have hp := List.mem_takeWhile_imp hd
          simpa using hp
        have hdr : (cs ++ s).dropWhile (fun d => !isPySpace d) =
            cs.dropWhile (fun d => !isPySpace d) ++ s := by
          rw [List.dropWhile_append]
          rw [if_neg (by simpa using hne)]
        rw [htk, hdr]
        rw [pySplit_append_spaces (cs.dropWhile (fun d => !isPySpace d)) s hs]
termination_by l _ => l.length
decreasing_by
  all_goals simp
  all_goals
    have h9 := length_dropWhile_le (fun d => !isPySpace d) cs
    omega

/-- `str.strip()` does not affect `str.split()`. -/
theorem pySplit_pyStripL (l : List Char) : pySplit (pyStripL l) = pySplit l := by
  have hsplit : l.dropWhile isPySpace = pyStripL l ++
      ((l.dropWhile isPySpace).reverse.takeWhile isPySpace).reverse := by
    conv_lhs => rw [← List.reverse_reverse (l.dropWhile isPySpace)]
    conv_lhs =>
      rw [← List.takeWhile_append_dropWhile isPySpace (l.dropWhile isPySpace).reverse]
    rw [List.reverse_append]
    rfl
  have hs : ∀ c ∈ ((l.dropWhile isPySpace).reverse.takeWhile isPySpace).reverse,
      isPySpace c = true := by
    intro c hc
    exact List.mem_takeWhile_imp (List.mem_reverse.mp hc)
  rw [← pySplit_dropWhile l, hsplit]
  exact (pySplit_append_spaces (pyStripL l) _ hs).symm

/-- If a string splits into a single word, stripping it yields exactly that word. -/
theorem pyStripL_single_word {l w : List Char} (h : pySplit l = [w]) : pyStripL l = w := by
  have hx : pySplit (pyStripL l) = [w] := by rw [pySplit_pyStripL, h]
  cases hl : pyStripL l with
  | nil =>
    rw [hl, pySplit_nil] at hx
    exact absurd hx (by simp)
  | cons c cs =>
    have hc : isPySpace c = false := head?_pyStripL l c (by rw [hl]; rfl)
    rw [hl, pySplit_cons_word hc] at hx
    have hdrop : pySplit (cs.dropWhile (fun d => !isPySpace d)) = [] := by
      have := congrArg List.tail hx
      simpa using this
    have hword : c :: cs.takeWhile (fun d => !isPySpace d) = w := by
      have := congrArg List.head? hx
      simpa using this
    have hnil : cs.dropWhile (fun d => !isPySpace d) = [] := by
      by_contra hne
      have hlast : (cs.dropWhile (fun d => !isPySpace d)).getLast? = cs.getLast? :=
        getLast?_dropWhile hne
      have hcs : cs ≠ [] := by
        intro hcs
        rw [hcs] at hne
        simp at hne
      obtain ⟨d, hd⟩ : ∃ d, (cs.dropWhile (fun d => !isPySpace d)).getLast? = some d := by
        cases hg : (cs.dropWhile (fun d => !isPySpace d)).getLast? with
        | none => exact absurd (List.getLast?_eq_none_iff.mp hg) hne
        | some d => exact ⟨d, rfl⟩
      have hdsp : isPySpace d = true :=
        all_space_of_pySplit_nil _ hdrop d (List.mem_of_mem_getLast? (Option.mem_def.mpr hd))
      have hlast2 : (pyStripL l).getLast? = some d := by
        rw [hl]
        cases hcseq : cs with
        | nil => exact absurd hcseq hcs
        | cons a as =>
          rw [List.getLast?_cons_cons]
          rw [← hcseq, ← hlast, hd]
      have := getLast?_pyStripL l d hlast2
      rw [hdsp] at this
      exact absurd this (by simp)
    have htake : cs.takeWhile (fun d => !isPySpace d) = cs := by
      have hsplit := List.takeWhile_append_dropWhile (fun d => !isPySpace d) cs
      rw [hnil, List.append_nil] at hsplit
      exact hsplit
    rw [← hword, htake]

/-! ### Data model

`load_lists` parses two CSV tables.  A raw table is modelled as its header
row plus data rows (lists of cells); `pd.read_csv` itself (file I/O) is
outside the embedding.  A loaded ratings record mirrors the columns the
code uses after renaming. -/

/-- One loaded row of the ratings table (post-rename, post-normalisation). -/
structure SpeciesRow where
  scientific_name : String
  common_name : String
  rating : String
  is_ccr_flag : Bool
deriving DecidableEq, Repr

/-- `to_bool_yes_no` from the source. -/
def to_bool_yes_no (x : String) : Bool :=
  norm x = "yes" || norm x = "y" || norm x = "true" || norm x = "1"

/-- A parsed tabular input: header cells and data rows. -/
structure RawTable where
  headers : List String
  rows : List (List String)
deriving DecidableEq, Repr

/-- Column renaming applied to the ratings table: strip each header, then
rename the four known aliases (exact match, as `DataFrame.rename` does). -/
def renameRatingsHeader (h : String) : String :=
  let h0 := pyStrip h
  if h0 = "Scientific Name" then "scientific_name"
  else if h0 = "Common Name" then "common_name"
  else if h0 = "CDFA Pest Rating" then "rating"
  else if h0 = "CCR 4500 Noxious Weeds" then "is_ccr_flag"
  else h0

/-- Column renaming applied to the CCR table (only two aliases). -/
def renameCcrHeader (h : String) : String :=
  let h0 := pyStrip h
  if h0 = "Scientific Name" then "scientific_name"
  else if h0 = "Common Name" then "common_name"
  else h0

/-- Index of the column with canonical name `name` after renaming. -/
def colIdx (rename : String → String) (headers : List String) (name : String) : Option Nat :=
  (headers.map rename).findIdx? (fun h => h = name)

/-- Fetch the cell of `row` in column `i` (empty if the column is absent). -/
def cellAt (row : List String) (i : Option Nat) : String :=
  match i with
  | some j => row.getD j ""
  | none => ""

/-- The header-duplicate filter of `load_lists`:
`ratings["scientific_name"].astype(str).str.strip().str.lower() != "scientific_name"`. -/
def keepRow (cell : String) : Bool := !(pyLower (pyStrip cell) = "scientific_name")

/-- The data rows of the ratings table that survive the duplicate-header filter,
paired with the column layout. -/
def ratingsKeptRows (t : RawTable) : List (List String) :=
  let si := colIdx renameRatingsHeader t.headers "scientific_name"
  t.rows.filter (fun r => keepRow (cellAt r si))

/-- `load_lists`, ratings half: filter the duplicated-header rows, then strip
the name columns, uppercase the rating and parse the yes/no flag. -/
def load_ratings (t : RawTable) : List SpeciesRow :=
  let si := colIdx renameRatingsHeader t.headers "scientific_name"
  let ci := colIdx renameRatingsHeader t.headers "common_name"
  let ri := colIdx renameRatingsHeader t.headers "rating"
  let fi := colIdx renameRatingsHeader t.headers "is_ccr_flag"
  (ratingsKeptRows t).map (fun r =>
    { scientific_name := pyStrip (cellAt r si)
      common_name := pyStrip (cellAt r ci)
      rating := pyUpper (pyStrip (cellAt r ri))
      is_ccr_flag := to_bool_yes_no (cellAt r fi) })

/-- The CCR data rows surviving the duplicate-header filter. -/
def ccrKeptRows (t : RawTable) : List (List String) :=
  let si := colIdx renameCcrHeader t.headers "scientific_name"
  t.rows.filter (fun r => keepRow (cellAt r si))

/-- `load_lists`, CCR half: the Noxious Set of normalised scientific names
(a Python `set`, modelled as the list of its elements). -/
def load_ccr_set (t : RawTable) : List String :=
  let si := colIdx renameCcrHeader t.headers "scientific_name"
  (ccrKeptRows t).map (fun r => norm (cellAt r si))

/-- `load_lists` returns the ratings records and the Noxious Set. -/
def load_lists (ratings ccr : RawTable) : List SpeciesRow × List String :=
  (load_ratings ratings, load_ccr_set ccr)

/-! ### Queue builder

`build_queue` adds a `priority` column (`{"A":0,"B":1,"C":2}`, `fillna(3)`),
sorts by `["priority", "scientific_name"]`, truncates with `head(limit)` and
emits one scan target per remaining row. -/

/-- `priority_map` from the source. -/
def priority_map (r : String) : Option Nat :=
  if r = "A" then some 0 else if r = "B" then some 1 else if r = "C" then some 2 else none

/-- `.map(priority_map).fillna(3)`. -/
def priorityOf (r : String) : Nat := (priority_map r).getD 3

/-- Python string `<` (lexicographic on code points; a proper prefix is smaller). -/
def strLt : List Char → List Char → Bool
  | _, [] => false
  | [], _ :: _ => true
  | a :: s, b :: t => if a < b then true else if b < a then false else strLt s t

theorem strLt_irrefl : ∀ (l : List Char), strLt l l = false
  | [] => rfl
  | a :: s => by
    rw [strLt]
    simp [strLt_irrefl s]

theorem strLt_trans : ∀ {x y z : List Char},
    strLt x y = true → strLt y z = true → strLt x z = true
  | _, [], _, hxy, _ => by rw [strLt] at hxy; cases hxy
  | _, _ :: _, [], _, hyz => by rw [strLt] at hyz; cases hyz
  | [], b :: t, c :: u, _, _ => rfl
  | a :: s, b :: t, c :: u, hxy, hyz => by
    rw [strLt] at hxy hyz ⊢
    by_cases hab : a < b
    · by_cases hbc : b < c
      · rw [if_pos (lt_trans hab hbc)]
      · by_cases hcb : c < b
        · rw [if_neg hbc, if_pos hcb] at hyz
          cases hyz
        · have hbceq : b = c := le_antisymm (not_lt.mp hcb) (not_lt.mp hbc)
          rw [if_pos (hbceq ▸ hab)]
    · by_cases hba : b < a
      · rw [if_neg hab, if_pos hba] at hxy
        cases hxy
      · have habeq : a = b := le_antisymm (not_lt.mp hba) (not_lt.mp hab)
        subst habeq
        rw [if_neg hab, if_neg hba] at hxy
        by_cases hac : a < c
        · rw [if_pos hac]
        · by_cases hca : c < a
          · rw [if_neg hac, if_pos hca] at hyz
            cases hyz
          · rw [if_neg hac, if_neg hca] at hyz ⊢
            exact strLt_trans hxy hyz

theorem strLt_connex : ∀ {x y : List Char},
    strLt x y = false → strLt y x = false → x = y
  | [], [], _, _ => rfl
  | [], _ :: _, hxy, _ => by rw [strLt] at hxy; cases hxy
  | _ :: _, [], _, hyx => by rw [strLt] at hyx; cases hyx
  | a :: s, b :: t, hxy, hyx => by
    rw [strLt] at hxy hyx
    rcases lt_trichotomy a b with hab | hab | hab
    · simp [hab] at hxy
    · subst hab
      simp only [lt_irrefl, if_neg, if_false] at hxy hyx
      rw [strLt_connex hxy hyx]
    · simp [hab] at hyx

/-- The sort key comparison used by `sort_values(["priority", "scientific_name"])`:
ascending priority, ties broken by ascending scientific name. -/
def keyLE (a b : SpeciesRow) : Bool :=
  if priorityOf a.rating < priorityOf b.rating then true
  else if priorityOf b.rating < priorityOf a.rating then false
  else !strLt b.scientific_name.data a.scientific_name.data

/-- `keyLE` as a relation, for `List.insertionSort`. -/
def rowLE (a b : SpeciesRow) : Prop := keyLE a b = true

instance : DecidableRel rowLE := fun a b => instDecidableEqBool (keyLE a b) true

theorem strLt_asymm {x y : List Char} (h : strLt x y = true) : strLt y x = false := by
  by_contra hc
  rw [Bool.not_eq_false] at hc
  have h1 := strLt_trans h hc
  rw [strLt_irrefl] at h1
  cases h1

instance : IsTotal SpeciesRow rowLE := by
  constructor
  intro a b
  unfold rowLE keyLE
  by_cases h : priorityOf a.rating < priorityOf b.rating
  · left
    rw [if_pos h]
  · by_cases h' : priorityOf b.rating < priorityOf a.rating
    · right
      rw [if_pos h']
    · by_cases hs : strLt b.scientific_name.data a.scientific_name.data = true
      · right
        rw [if_neg h', if_neg h, strLt_asymm hs]
        rfl
      · left
        rw [Bool.not_eq_true] at hs
        rw [if_neg h, if_neg h', hs]
        rfl

instance : IsTrans SpeciesRow rowLE := by
  constructor
  intro a b c hab hbc
  unfold rowLE keyLE at hab hbc ⊢
  by_cases h1 : priorityOf a.rating < priorityOf b.rating
  · by_cases h2 : priorityOf b.rating < priorityOf c.rating
    · rw [if_pos (lt_trans h1 h2)]
    · by_cases h2' : priorityOf c.rating < priorityOf b.rating
      · rw [if_neg h2, if_pos h2'] at hbc
        cases hbc
      · have heq : priorityOf b.rating = priorityOf c.rating :=
          le_antisymm (not_lt.mp h2') (not_lt.mp h2)
        rw [if_pos (heq ▸ h1)]
  · by_cases h1' : priorityOf b.rating < priorityOf a.rating
    · rw [if_neg h1, if_pos h1'] at hab
      cases hab
    · have heq1 : priorityOf a.rating = priorityOf b.rating :=
        le_antisymm (not_lt.mp h1') (not_lt.mp h1)
      rw [if_neg h1, if_neg h1'] at hab
      by_cases h2 : priorityOf b.rating < priorityOf c.rating
      · rw [if_pos (heq1 ▸ h2)]
      · by_cases h2' : priorityOf c.rating < priorityOf b.rating
        · rw [if_neg h2, if_pos h2'] at hbc
          cases hbc
        · have heq2 : priorityOf b.rating = priorityOf c.rating :=
            le_antisymm (not_lt.mp h2') (not_lt.mp h2)
          rw [if_neg h2, if_neg h2'] at hbc
          have hac : ¬ priorityOf a.rating < priorityOf c.rating := by
            rw [heq1, heq2]
            exact lt_irrefl _
          have hca : ¬ priorityOf c.rating < priorityOf a.rating := by
            rw [heq1, heq2]
            exact lt_irrefl _
          rw [if_neg hac, if_neg hca]
          rw [Bool.not_eq_true'] at hab hbc ⊢
          by_contra hc
          rw [Bool.not_eq_false] at hc
          by_cases hsab : strLt a.scientific_name.data b.scientific_name.data = true
          · have h3 := strLt_trans hc hsab
            rw [hbc] at h3
            cases h3
          · have heqs := strLt_connex (Bool.not_eq_true _ ▸ hsab) hab
            rw [← heqs, hc] at hbc
            cases hbc

/-- One scan target, as assembled in the `build_queue` loop. -/
structure ScanTarget where
  scientific_name : String
  common_name : String
  rating : String
  is_ccr_from_ratings : Bool
  query : String
deriving DecidableEq, Repr

/-- Loop body of `build_queue`: one row becomes one scan target. -/
def toTarget (row : SpeciesRow) : ScanTarget :=
  let sci := pyStrip row.scientific_name
  let com := pyStrip row.common_name
  { scientific_name := sci
    common_name := com
    rating := pyUpper (pyStrip row.rating)
    is_ccr_from_ratings := row.is_ccr_flag
    query := pyStrip (sci ++ " " ++ com) }

/-- The sorted ratings table (`df.sort_values(["priority", "scientific_name"])`). -/
def sortRatings (ratings : List SpeciesRow) : List SpeciesRow :=
  List.insertionSort rowLE ratings

/-- `build_queue` from the source. -/
def build_queue (ratings : List SpeciesRow) (limit_items : Nat) : List ScanTarget :=
  ((sortRatings ratings).take limit_items).map toTarget

/-- The mutable dataframe state of `build_queue`: its rows and the optional
extra `priority` column that `df["priority"] = ...` adds in place. -/
structure DF where
  rows : List SpeciesRow
  priority : Option (List Nat)
deriving DecidableEq, Repr

/-- `build_queue` with the table state made explicit: `df = ratings.copy()`
is mutated (gains the `priority` column, is re-sorted), the caller's table
is returned unchanged. -/
def build_queueSt (ratings : DF) (limit_items : Nat) : List ScanTarget × DF :=
  let df0 := ratings
  let df1 : DF := { df0 with priority := some (df0.rows.map (fun r => priorityOf r.rating)) }
  let sorted := sortRatings df1.rows
  ((sorted.take limit_items).map toTarget, ratings)

/-! ### Marketplace clients

`ebay_search` / `etsy_search` fetch a page over the network and walk the
parsed HTML.  The fetched-and-parsed page is the model's input: a list of
candidate entries with the attributes the selectors extract. -/

/-- One marketplace listing as the scrapers return it. -/
structure Listing where
  site : String
  title : String
  price : String
  url : String
deriving DecidableEq, Repr

/-- One `li.s-item` entry of a parsed eBay results page:
`link` is the result of `a.get("href", "")` when `a.s-item__link` exists,
`title_el` the text of `.s-item__title` when present, `price_el` the text
of `.s-item__price` when present. -/
structure EbayItem where
  link : Option String
  title_el : Option String
  price_el : Option String
deriving DecidableEq, Repr

/-- The eBay result loop: skip entries without link or title, skip empty or
placeholder titles, stop once `limit_results` entries are collected. -/
def ebayLoop : List EbayItem → Nat → List Listing → List Listing
  | [], _, acc => acc
  | li :: rest, limit, acc =>
    match li.link, li.title_el with
    | some href, some title =>
      if title = "" || pyLower title = "shop on ebay" then ebayLoop rest limit acc
      else
        let acc2 := acc ++ [{ site := "eBay", title := title,
                              price := li.price_el.getD "", url := href }]
        if limit ≤ acc2.length then acc2 else ebayLoop rest limit acc2
    | _, _ => ebayLoop rest limit acc

/-- `ebay_search` on an already fetched and parsed page. -/
def ebay_search (page : List EbayItem) (limit_results : Nat) : List Listing :=
  ebayLoop page limit_results []

/-- One anchor of a parsed Etsy results page (`a.listing-link, a.wt-text-link`):
`href` is `a.get("href", "")`, `text` the anchor text. -/
structure EtsyAnchor where
  href : String
  text : String
deriving DecidableEq, Repr

/-- The Etsy result loop: skip non-absolute links and empty titles, stop once
`limit_results` entries are collected. -/
def etsyLoop : List EtsyAnchor → Nat → List Listing → List Listing
  | [], _, acc => acc
  | a :: rest, limit, acc =>
    if !(a.href.startsWith "http") then etsyLoop rest limit acc
    else if a.text = "" then etsyLoop rest limit acc
    else
      let acc2 := acc ++ [{ site := "Etsy", title := a.text, price := "", url := a.href }]
      if limit ≤ acc2.length then acc2 else etsyLoop rest limit acc2

/-- `etsy_search` on an already fetched and parsed page. -/
def etsy_search (page : List EtsyAnchor) (limit_results : Nat) : List Listing :=
  etsyLoop page limit_results []

/-! ### Scan orchestrator

`do_scan` loads the lists, builds the queue, and for each target queries the
enabled marketplaces, merging listings with the target's regulatory flags.
Mutations of `STATE["progress"]` / `STATE["error"]` are modelled by an
explicit `ScanState`; a marketplace client is a function that may fail
(`Except`), abstracting the network call.  `time.sleep` has no observable
effect on the model. -/

/-- Module toggle `ENABLE_EBAY = True`. -/
def ENABLE_EBAY : Bool := true

/-- Module toggle `ENABLE_ETSY = False`. -/
def ENABLE_ETSY : Bool := false

/-- `ScanConfig` (the throttle delay has no observable effect and is omitted). -/
structure ScanConfig where
  limit_items : Nat := 10
  per_site_results : Nat := 3
deriving DecidableEq, Repr

/-- One merged result row. -/
structure ResultRow where
  scientific_name : String
  common_name : String
  rating : String
  is_ccr : Bool
  site : String
  title : String
  price : String
  url : String
deriving DecidableEq, Repr

/-- The fragment of `STATE` that `do_scan` writes. -/
structure ScanState where
  progress : String
  error : Option String
deriving DecidableEq, Repr

/-- A marketplace client: query and per-site cap to listings, or a raised error. -/
abbrev Client := String → Nat → Except String (List Listing)

/-- A single-quote character, for building the error messages literally. -/
def squote : String := ⟨[Char.ofNat 39]⟩

/-- `f"eBay search failed for '{query}': {repr(e)}"` with `e`'s text abstracted. -/
def ebayErrMsg (query e : String) : String :=
  "eBay search failed for " ++ squote ++ query ++ squote ++ ": " ++ e

/-- `f"Etsy search failed for '{query}': {repr(e)}"` with `e`'s text abstracted. -/
def etsyErrMsg (query e : String) : String :=
  "Etsy search failed for " ++ squote ++ query ++ squote ++ ": " ++ e

/-- The combined regulatory flag computed per target:
`bool(item["is_ccr_from_ratings"]) or (norm(sci) in ccr_set)`. -/
def combinedFlag (flag : Bool) (sci : String) (ccr_set : List String) : Bool :=
  flag || decide (norm sci ∈ ccr_set)

/-- Merge one listing with its target's metadata. -/
def mkRow (item : ScanTarget) (is_ccr : Bool) (h : Listing) : ResultRow :=
  { scientific_name := item.scientific_name
    common_name := item.common_name
    rating := item.rating
    is_ccr := is_ccr
    site := h.site
    title := h.title
    price := h.price
    url := h.url }

/-- `f"[{i}/{total}] Searching: {query}"`. -/
def progressMsg (i total : Nat) (query : String) : String :=
  "[" ++ toString i ++ "/" ++ toString total ++ "] Searching: " ++ query

/-- One iteration of the `do_scan` loop for one queue item. -/
def scanStep (eb et : Client) (enE enT : Bool) (perSite : Nat) (ccr_set : List String)
    (total i : Nat) (item : ScanTarget) (st : ScanState) : List ResultRow × ScanState :=
  let is_ccr := combinedFlag item.is_ccr_from_ratings item.scientific_name ccr_set
  let st1 : ScanState := { st with progress := progressMsg i total item.query }
  let p1 :=
    if enE then
      match eb item.query perSite with
      | .ok hs => (hs, st1)
      | .error e => (([] : List Listing), { st1 with error := some (ebayErrMsg item.query e) })
    else (([] : List Listing), st1)
  let p2 :=
    if enT then
      match et item.query perSite with
      | .ok hs => (hs, p1.2)
      | .error e => (([] : List Listing), { p1.2 with error := some (etsyErrMsg item.query e) })
    else (([] : List Listing), p1.2)
  ((p1.1 ++ p2.1).map (mkRow item is_ccr), p2.2)

/-- The `for i, item in enumerate(queue, start=1)` loop of `do_scan`. -/
def scanLoop (eb et : Client) (enE enT : Bool) (perSite : Nat) (ccr_set : List String)
    (total : Nat) : Nat → List ScanTarget → List ResultRow → ScanState →
    List ResultRow × ScanState
  | _, [], acc, st => (acc, st)
  | i, item :: rest, acc, st =>
    let p := scanStep eb et enE enT perSite ccr_set total i item st
    scanLoop eb et enE enT perSite ccr_set total (i + 1) rest (acc ++ p.1) p.2

/-- `do_scan` from the source, with the loaded lists and the marketplace
clients injected. -/
def do_scan (eb et : Client) (enE enT : Bool) (ratings : List SpeciesRow)
    (ccr_set : List String) (cfg : ScanConfig) (st : ScanState) :
    List ResultRow × ScanState :=
  let queue := build_queue ratings cfg.limit_items
  let total := queue.length
  let st1 : ScanState := { st with progress := "Scanning " ++ toString total ++ " species..." }
  let p := scanLoop eb et enE enT cfg.per_site_results ccr_set total 1 queue [] st1
  (p.1, { p.2 with progress := "Done. Found " ++ toString p.1.length ++ " listings." })

/-! ### Status store and HTTP endpoint -/

/-- The process-wide `STATE` dictionary. -/
structure RunState where
  running : Bool
  progress : String
  results : List ResultRow
  error : Option String
  last_run_at : Option String
deriving DecidableEq, Repr

/-- The request body of the `/run` endpoint. -/
structure RunRequest where
  limit_items : Nat := 10
  per_site_results : Nat := 3
deriving DecidableEq, Repr

/-- The only response the `/run` endpoint produces. -/
inductive Response where
  | redirect (location : String) (status_code : Nat)
deriving DecidableEq, Repr

/-- The body of a scan run: given the state fragment it may write, either the
scan's results or an escaped error, together with the final fragment.  An
arbitrary such function covers any failure escaping `do_scan`'s per-target
handling. -/
abbrev ScanFn := ScanState → Except String (List ResultRow) × ScanState

/-- The `worker` closure of the `/run` endpoint: reset the run state, execute
the scan, store results or the escaped error, and always clear `running`.
`now` abstracts `datetime.now().strftime(...)`. -/
def worker (scan : ScanFn) (now : String) (st : RunState) : RunState :=
  match scan (ScanState.mk "Starting..." none) with
  | (.ok results, s2) =>
    { running := false, progress := s2.progress, results := results,
      error := s2.error, last_run_at := some now }
  | (.error e, s2) =>
    { running := false, progress := s2.progress, results := [],
      error := some e, last_run_at := st.last_run_at }

/-- The `/run` endpoint: when a scan is already running it only redirects;
otherwise it spawns the worker (returned as the scan configuration it would
use — the state itself is mutated asynchronously, not by the handler). -/
def run (req : RunRequest) (st : RunState) : Response × RunState × Option ScanConfig :=
  if st.running then (Response.redirect "/" 303, st, none)
  else (Response.redirect "/" 303, st,
    some { limit_items := req.limit_items, per_site_results := req.per_site_results })

/-! ### Characterisation of `do_scan`

The loop is re-expressed declaratively: the listings contributed per item,
the error messages raised per item, and the "latest error wins" rule. -/

/-- The listings one queue item contributes (failed calls contribute none). -/
def itemHits (eb et : Client) (enE enT : Bool) (perSite : Nat) (item : ScanTarget) :
    List Listing :=
  (if enE then ((eb item.query perSite).toOption.getD []) else []) ++
  (if enT then ((et item.query perSite).toOption.getD []) else [])

/-- The error messages one queue item generates, in order. -/
def itemErrs (eb et : Client) (enE enT : Bool) (perSite : Nat) (item : ScanTarget) :
    List String :=
  (if enE then
    match eb item.query perSite with
    | .ok _ => []
    | .error e => [ebayErrMsg item.query e]
   else []) ++
  (if enT then
    match et item.query perSite with
    | .ok _ => []
    | .error e => [etsyErrMsg item.query e]
   else [])

/-- All result rows of one scan, declaratively. -/
def scanRows (eb et : Client) (enE enT : Bool) (perSite : Nat) (ccr_set : List String)
    (queue : List ScanTarget) : List ResultRow :=
  queue.flatMap (fun item =>
    (itemHits eb et enE enT perSite item).map
      (mkRow item (combinedFlag item.is_ccr_from_ratings item.scientific_name ccr_set)))

/-- All error messages of one scan, in order. -/
def scanErrs (eb et : Client) (enE enT : Bool) (perSite : Nat)
    (queue : List ScanTarget) : List String :=
  queue.flatMap (itemErrs eb et enE enT perSite)

/-- "Latest error wins": the last message if any, else the previous error value. -/
def lastErr (es : List String) (e0 : Option String) : Option String :=
  match es.getLast? with
  | some e => some e
  | none => e0

theorem lastErr_append (xs ys : List String) (e0 : Option String) :
    lastErr (xs ++ ys) e0 = lastErr ys (lastErr xs e0) := by
  unfold lastErr
  rw [List.getLast?_append]
  cases hy : ys.getLast? with
  | some y => rfl
  | none =>
    cases hx : xs.getLast? with
    | some x => rfl
    | none => rfl

theorem scanStep_eq (eb et : Client) (enE enT : Bool) (perSite : Nat)
    (ccr_set : List String) (total i : Nat) (item : ScanTarget) (st : ScanState) :
    scanStep eb et enE enT perSite ccr_set total i item st =
      ((itemHits eb et enE enT perSite item).map
          (mkRow item (combinedFlag item.is_ccr_from_ratings item.scientific_name ccr_set)),
        { progress := progressMsg i total item.query
          error := lastErr (itemErrs eb et enE enT perSite item) st.error }) := by
  unfold scanStep itemHits itemErrs
  cases enE <;> cases enT <;>
    simp only [if_pos, if_neg, Bool.false_eq_true, not_false_iff, if_true, if_false]
  · rfl
  · cases et item.query perSite <;> rfl
  · cases eb item.query perSite <;> rfl
  · cases eb item.query perSite <;> cases et item.query perSite <;> rfl

theorem scanLoop_eq (eb et : Client) (enE enT : Bool) (perSite : Nat)
    (ccr_set : List String) (total : Nat) :
    ∀ (queue : List ScanTarget) (i : Nat) (acc : List ResultRow) (st : ScanState),
      scanLoop eb et enE enT perSite ccr_set total i queue acc st =
        (acc ++ scanRows eb et enE enT perSite ccr_set queue,
          (scanLoop eb et enE enT perSite ccr_set total i queue acc st).2) ∧
      (scanLoop eb et enE enT perSite ccr_set total i queue acc st).2.error =
        lastErr (scanErrs eb et enE enT perSite queue) st.error := by
  intro queue
  induction queue with
  | nil =>
    intro i acc st
    constructor
    · unfold scanLoop scanRows
      simp
    · unfold scanLoop scanErrs lastErr
      simp
  | cons item rest ih =>
    intro i acc st
    have hstep := scanStep_eq eb et enE enT perSite ccr_set total i item st
    constructor
    · show scanLoop eb et enE enT perSite ccr_set total i (item :: rest) acc st = _
      unfold scanLoop
      rw [hstep]
      obtain ⟨h1, _⟩ := ih (i + 1)
        (acc ++ (itemHits eb et enE enT perSite item).map
          (mkRow item (combinedFlag item.is_ccr_from_ratings item.scientific_name ccr_set)))
        { progress := progressMsg i total item.query
          error := lastErr (itemErrs eb et enE enT perSite item) st.error }
      rw [h1]
      unfold scanRows
      rw [List.flatMap_cons, List.append_assoc]
    · show (scanLoop eb et enE enT perSite ccr_set total i (item :: rest) acc st).2.error = _
      unfold scanLoop
      rw [hstep]
      obtain ⟨_, h2⟩ := ih (i + 1)
        (acc ++ (itemHits eb et enE enT perSite item).map
          (mkRow item (combinedFlag item.is_ccr_from_ratings item.scientific_name ccr_set)))
        { progress := progressMsg i total item.query
          error := lastErr (itemErrs eb et enE enT perSite item) st.error }
      rw [h2]
      unfold scanErrs
      rw [List.flatMap_cons, lastErr_append]

/-- `do_scan` computes exactly the declarative result rows and final error. -/
theorem do_scan_eq (eb et : Client) (enE enT : Bool) (ratings : List SpeciesRow)
    (ccr_set : List String) (cfg : ScanConfig) (st : ScanState) :
    (do_scan eb et enE enT ratings ccr_set cfg st).1 =
      scanRows eb et enE enT cfg.per_site_results ccr_set
        (build_queue ratings cfg.limit_items) ∧
    (do_scan eb et enE enT ratings ccr_set cfg st).2.error =
      lastErr (scanErrs eb et enE enT cfg.per_site_results
        (build_queue ratings cfg.limit_items)) st.error := by
  obtain ⟨h1, h2⟩ := scanLoop_eq eb et enE enT cfg.per_site_results ccr_set
    (build_queue ratings cfg.limit_items).length (build_queue ratings cfg.limit_items)
    1 []
    { st with progress := "Scanning " ++
        toString (build_queue ratings cfg.limit_items).length ++ " species..." }
  constructor
  · show (scanLoop eb et enE enT cfg.per_site_results ccr_set _ 1 _ [] _).1 = _
    rw [h1]
    simp
  · show (scanLoop eb et enE enT cfg.per_site_results ccr_set _ 1 _ [] _).2.error = _
    rw [h2]

/-! ### Supporting lemmas for the marketplace-client claims -/

theorem ebayLoop_length : ∀ (page : List EbayItem) (limit : Nat) (acc : List Listing),
    acc.length < limit → (ebayLoop page limit acc).length ≤ limit
  | [], limit, acc, h => by
    unfold ebayLoop
    omega
  | li :: rest, limit, acc, h => by
    obtain ⟨lnk, tel, pel⟩ := li
    cases lnk with
    | none => exact ebayLoop_length rest limit acc h
    | some href =>
      cases tel with
      | none => exact ebayLoop_length rest limit acc h
      | some title =>
        simp only [ebayLoop]
        split
        · exact ebayLoop_length rest limit acc h
        · split
          · next hlen =>
            simp only [List.length_append, List.length_cons, List.length_nil]
            omega
          · next hlen =>
            apply ebayLoop_length
            simp only [List.length_append, List.length_cons, List.length_nil] at hlen ⊢
            omega

theorem ebayLoop_mem : ∀ (page : List EbayItem) (limit : Nat) (acc : List Listing)
    (l : Listing), l ∈ ebayLoop page limit acc →
    l ∈ acc ∨ (l.site = "eBay" ∧ l.title ≠ "" ∧ pyLower l.title ≠ "shop on ebay")
  | [], limit, acc, l, h => Or.inl h
  | li :: rest, limit, acc, l, h => by
    obtain ⟨lnk, tel, pel⟩ := li
    cases lnk with
    | none => exact ebayLoop_mem rest limit acc l h
    | some href =>
      cases tel with
      | none => exact ebayLoop_mem rest limit acc l h
      | some title =>
        simp only [ebayLoop] at h
        split at h
        · exact ebayLoop_mem rest limit acc l h
        · next ht =>
          have hgood : title ≠ "" ∧ pyLower title ≠ "shop on ebay" := by
            rw [Bool.or_eq_true] at ht
            push_neg at ht
            exact ⟨by simpa using ht.1, by simpa using ht.2⟩
          have hnew : ∀ m : Listing,
              m ∈ acc ++ [(⟨"eBay", title, pel.getD "", href⟩ : Listing)] →
              m ∈ acc ∨ (m.site = "eBay" ∧ m.title ≠ "" ∧ pyLower m.title ≠ "shop on ebay") := by
            intro m hm
            rcases List.mem_append.mp hm with hm2 | hm2
            · exact Or.inl hm2
            · right
              rcases List.mem_singleton.mp hm2 with rfl
              exact ⟨rfl, hgood.1, hgood.2⟩
          split at h
          · exact hnew l h
          · rcases ebayLoop_mem rest limit _ l h with hl | hl
            · exact hnew l hl
            · exact Or.inr hl

theorem etsyLoop_length : ∀ (page : List EtsyAnchor) (limit : Nat) (acc : List Listing),
    acc.length < limit → (etsyLoop page limit acc).length ≤ limit
  | [], limit, acc, h => by
    unfold etsyLoop
    omega
  | a :: rest, limit, acc, h => by
    simp only [etsyLoop]
    split
    · exact etsyLoop_length rest limit acc h
    · split
      · exact etsyLoop_length rest limit acc h
      · split
        · next hlen =>
          simp only [List.length_append, List.length_cons, List.length_nil]
          omega
        · next hlen =>
          apply etsyLoop_length
          simp only [List.length_append, List.length_cons, List.length_nil] at hlen ⊢
          omega

theorem etsyLoop_mem : ∀ (page : List EtsyAnchor) (limit : Nat) (acc : List Listing)
    (l : Listing), l ∈ etsyLoop page limit acc →
    l ∈ acc ∨ (l.site = "Etsy" ∧ l.title ≠ "")
  | [], limit, acc, l, h => Or.inl h
  | a :: rest, limit, acc, l, h => by
    simp only [etsyLoop] at h
    split at h
    · exact etsyLoop_mem rest limit acc l h
    · split at h
      · exact etsyLoop_mem rest limit acc l h
      · next h2 =>
        have hnew : ∀ m : Listing,
            m ∈ acc ++ [(⟨"Etsy", a.text, "", a.href⟩ : Listing)] →
            m ∈ acc ∨ (m.site = "Etsy" ∧ m.title ≠ "") := by
          intro m hm
          rcases List.mem_append.mp hm with hm2 | hm2
          · exact Or.inl hm2
          · right
            rcases List.mem_singleton.mp hm2 with rfl
            exact ⟨rfl, h2⟩
        split at h
        · exact hnew l h
        · rcases etsyLoop_mem rest limit _ l h with hl | hl
          · exact hnew l hl
          · exact Or.inr hl

/-! ### The claims -/

/-- C9: `norm` is idempotent, and case- and whitespace-insensitive — two
strings whose whitespace-split words agree up to letter case normalise
identically; e.g. `norm(" Foo   Bar ") = norm("foo bar") = "foo bar"`. -/
theorem norm_idempotent_insensitive :
    (∀ s : String, norm (norm s) = norm s) ∧
    (∀ s t : String, (pySplit s.data).map pyLowerL = (pySplit t.data).map pyLowerL →
      norm s = norm t) ∧
    norm " Foo   Bar " = norm "foo bar" ∧ norm "foo bar" = "foo bar" := by
  refine ⟨?_, ?_, by decide, by decide⟩
  · intro s
    show (⟨normL (norm s).data⟩ : String) = ⟨normL s.data⟩
    have hdata : (norm s).data = normL s.data := rfl
    rw [hdata, normL_idem]
  · intro s t h
    show (⟨normL s.data⟩ : String) = ⟨normL t.data⟩
    rw [normL_eq_of_split_lower h]

/-- Witness for C9: two strings differing only in case and whitespace runs
normalise identically. -/
theorem norm_idempotent_insensitive_witness : norm "A  b" = norm " a B " :=
  norm_idempotent_insensitive.2.1 "A  b" " a B " (by decide)

/-- C2: `build_queue` returns at most `limit` targets, a prefix of the full
table sorted ascending by (severity rank, scientific name); ranks are
A = 0, B = 1, C = 2, anything else 3. -/
theorem build_queue_spec (ratings : List SpeciesRow) (limit : Nat) :
    (build_queue ratings limit).length ≤ limit ∧
    (∃ sorted : List SpeciesRow, List.Perm sorted ratings ∧ List.Sorted rowLE sorted ∧
      build_queue ratings limit <+: sorted.map toTarget) ∧
    priorityOf "A" = 0 ∧ priorityOf "B" = 1 ∧ priorityOf "C" = 2 ∧
    (∀ r : String, r ≠ "A" → r ≠ "B" → r ≠ "C" → priorityOf r = 3) := by
  refine ⟨?_, ⟨sortRatings ratings, List.perm_insertionSort rowLE ratings,
      List.sorted_insertionSort rowLE ratings, ?_⟩, by decide, by decide, by decide, ?_⟩
  · show (((sortRatings ratings).take limit).map toTarget).length ≤ limit
    rw [List.length_map]
    exact List.length_take_le limit (sortRatings ratings)
  · show ((sortRatings ratings).take limit).map toTarget <+: (sortRatings ratings).map toTarget
    rw [List.map_take]
    exact ⟨((sortRatings ratings).map toTarget).drop limit, List.take_append_drop _ _⟩
  · intro r h1 h2 h3
    unfold priorityOf priority_map
    rw [if_neg h1, if_neg h2, if_neg h3]
    rfl

/-- Witness for C2, at a concrete two-row table and an unrecognised rating. -/
theorem build_queue_spec_witness :
    (build_queue [⟨"b", "x", "C", false⟩, ⟨"a", "y", "A", true⟩] 1).length ≤ 1 ∧
    priorityOf "N/A" = 3 :=
  ⟨(build_queue_spec [⟨"b", "x", "C", false⟩, ⟨"a", "y", "A", true⟩] 1).1,
    (build_queue_spec [] 0).2.2.2.2.2 "N/A" (by decide) (by decide) (by decide)⟩

/-- C10: `build_queue` does not modify its input table: it copies, and the
caller's table after the call is the table before it; the returned queue is
the pure `build_queue` of the rows. -/
theorem build_queue_frame (ratings : DF) (limit : Nat) :
    (build_queueSt ratings limit).2 = ratings ∧
    (build_queueSt ratings limit).1 = build_queue ratings.rows limit :=
  ⟨rfl, rfl⟩

/-- Counterexample for C4 as stated: with a requested cap of `0` and a single
valid entry on the page, `ebay_search` still returns one listing (the
truncation check runs only after an append), so "at most `k` for every `k`
including `k = 0`" is false. -/
theorem marketplace_cap_counterexample :
    ¬ ((ebay_search [⟨some "http://x", some "T", none⟩] 0).length ≤ 0) := by
  decide

/-- C4 (amended): for every fetched page and cap `k ≥ 1` each client returns
at most `k` listings, and (for every `k`) no returned listing has an empty
title or the placeholder title "Shop on eBay". -/
theorem marketplace_cap_and_filters (pe : List EbayItem) (pt : List EtsyAnchor) (k : Nat) :
    (1 ≤ k → (ebay_search pe k).length ≤ k ∧ (etsy_search pt k).length ≤ k) ∧
    (∀ l ∈ ebay_search pe k, l.title ≠ "" ∧ pyLower l.title ≠ "shop on ebay") ∧
    (∀ l ∈ etsy_search pt k, l.title ≠ "") := by
  refine ⟨?_, ?_, ?_⟩
  · intro hk
    constructor
    · exact ebayLoop_length pe k [] (by simpa using hk)
    · exact etsyLoop_length pt k [] (by simpa using hk)
  · intro l hl
    rcases ebayLoop_mem pe k [] l hl with h | h
    · simp at h
    · exact ⟨h.2.1, h.2.2⟩
  · intro l hl
    rcases etsyLoop_mem pt k [] l hl with h | h
    · simp at h
    · exact h.2

/-- Witness for C4 (amended), at a concrete page and cap 1. -/
theorem marketplace_cap_and_filters_witness :
    (ebay_search [⟨some "http://x", some "T", none⟩] 1).length ≤ 1 ∧
    (etsy_search [⟨"http://y", "U"⟩] 1).length ≤ 1 :=
  (marketplace_cap_and_filters [⟨some "http://x", some "T", none⟩] [⟨"http://y", "U"⟩] 1).1
    (by decide)

/-- C1: the combined regulatory flag is the logical OR of the record's own
flag and Noxious-Set membership of the normalised name; every result row
`do_scan` emits carries exactly that flag for its originating target; and a
record with flag `false` whose normalised name is in the set is flagged. -/
theorem combined_flag_or :
    (∀ (f : Bool) (s : String) (c : List String),
      (combinedFlag f s c = true ↔ (f = true ∨ norm s ∈ c)) ∧
      (combinedFlag f s c = false ↔ (f = false ∧ norm s ∉ c))) ∧
    (∀ (eb et : Client) (enE enT : Bool) (ratings : List SpeciesRow)
        (ccr_set : List String) (cfg : ScanConfig) (st : ScanState),
      ∀ row ∈ (do_scan eb et enE enT ratings ccr_set cfg st).1,
        ∃ t ∈ build_queue ratings cfg.limit_items,
          row.is_ccr = combinedFlag t.is_ccr_from_ratings t.scientific_name ccr_set) ∧
    combinedFlag false "Foo bar" [norm "Foo bar"] = true := by
  refine ⟨?_, ?_, by decide⟩
  · intro f s c
    unfold combinedFlag
    cases f <;> simp
  · intro eb et enE enT ratings ccr_set cfg st row hrow
    rw [(do_scan_eq eb et enE enT ratings ccr_set cfg st).1] at hrow
    unfold scanRows at hrow
    rcases List.mem_flatMap.mp hrow with ⟨t, ht, hmem⟩
    rcases List.mem_map.mp hmem with ⟨lst, _, hrfl⟩
    exact ⟨t, ht, by rw [← hrfl]; rfl⟩

/-- Witness for C1's per-row conjunct, on a one-row table with a stub client. -/
theorem combined_flag_or_witness :
    (⟨"Alligator weed", "Alligator Weed", "A", false, "eBay", "s", "", "u"⟩ : ResultRow) ∈
      (do_scan (fun _ _ => Except.ok [⟨"eBay", "s", "", "u"⟩])
        (fun _ _ => Except.ok [⟨"eBay", "s", "", "u"⟩]) true false
        [⟨"Alligator weed", "Alligator Weed", "A", false⟩] [] ⟨1, 1⟩ ⟨"", none⟩).1 ∧
    (∃ t ∈ build_queue [⟨"Alligator weed", "Alligator Weed", "A", false⟩] 1,
      (⟨"Alligator weed", "Alligator Weed", "A", false, "eBay", "s", "", "u"⟩ :
        ResultRow).is_ccr = combinedFlag t.is_ccr_from_ratings t.scientific_name []) :=
  ⟨by decide,
    combined_flag_or.2.1 (fun _ _ => Except.ok [⟨"eBay", "s", "", "u"⟩])
      (fun _ _ => Except.ok [⟨"eBay", "s", "", "u"⟩]) true false
      [⟨"Alligator weed", "Alligator Weed", "A", false⟩] [] ⟨1, 1⟩ ⟨"", none⟩
      ⟨"Alligator weed", "Alligator Weed", "A", false, "eBay", "s", "", "u"⟩ (by decide)⟩

/-- C5: marketplace failures never escape `do_scan` and never abort it — the
scan of the whole queue always completes, producing exactly the rows of the
succeeding calls, and the final error field holds only the single latest
failure message (overwriting; `none` recorded means the prior value stays). -/
theorem scan_error_policy (eb et : Client) (enE enT : Bool) (ratings : List SpeciesRow)
    (ccr_set : List String) (cfg : ScanConfig) (st : ScanState) :
    (do_scan eb et enE enT ratings ccr_set cfg st).1 =
      scanRows eb et enE enT cfg.per_site_results ccr_set
        (build_queue ratings cfg.limit_items) ∧
    (do_scan eb et enE enT ratings ccr_set cfg st).2.error =
      lastErr (scanErrs eb et enE enT cfg.per_site_results
        (build_queue ratings cfg.limit_items)) st.error ∧
    (∀ (es : List String) (e : String) (e0 : Option String),
      lastErr (es ++ [e]) e0 = some e) := by
  refine ⟨(do_scan_eq eb et enE enT ratings ccr_set cfg st).1,
    (do_scan_eq eb et enE enT ratings ccr_set cfg st).2, ?_⟩
  intro es e e0
  unfold lastErr
  rw [List.getLast?_append]
  rfl

/-- C6: any error escaping the per-target handling is recorded as the run
error, no results are stored for that run, and the running flag is cleared —
on the success path as well. -/
theorem worker_failure_handling (scan : ScanFn) (now : String) (st : RunState) :
    (worker scan now st).running = false ∧
    (∀ (e : String) (s2 : ScanState),
      scan (ScanState.mk "Starting..." none) = (Except.error e, s2) →
      (worker scan now st).error = some e ∧ (worker scan now st).results = []) := by
  constructor
  · unfold worker
    rcases hp : scan (ScanState.mk "Starting..." none) with ⟨res, s2⟩
    cases res <;> rfl
  · intro e s2 h
    unfold worker
    rw [h]
    exact ⟨rfl, rfl⟩

/-- Witness for C6: a scan body that raises records its error, stores no
results, and leaves the running flag cleared. -/
theorem worker_failure_handling_witness :
    (worker (fun s => (Except.error "RuntimeError(boom)", s)) "2024-01-01"
      ⟨true, "x", [], none, none⟩).error = some "RuntimeError(boom)" ∧
    (worker (fun s => (Except.error "RuntimeError(boom)", s)) "2024-01-01"
      ⟨true, "x", [], none, none⟩).results = [] :=
  (worker_failure_handling (fun s => (Except.error "RuntimeError(boom)", s)) "2024-01-01"
    ⟨true, "x", [], none, none⟩).2 "RuntimeError(boom)" ⟨"Starting...", none⟩ rfl

/-- C7: while a scan is running, the scan-trigger endpoint is a no-op — it
spawns no worker, leaves the run state exactly as it was, and only redirects
back to the status page. -/
theorem run_noop_when_running (req : RunRequest) (st : RunState) (h : st.running = true) :
    run req st = (Response.redirect "/" 303, st, none) := by
  unfold run
  rw [if_pos h]

/-- Witness for C7, at a concrete running state. -/
theorem run_noop_when_running_witness :
    run ⟨10, 3⟩ ⟨true, "busy", [], none, none⟩ =
      (Response.redirect "/" 303, ⟨true, "busy", [], none, none⟩, none) :=
  run_noop_when_running ⟨10, 3⟩ ⟨true, "busy", [], none, none⟩ (by decide)

/-- The end-to-end scenario's single ratings row. -/
def alligatorRow : SpeciesRow :=
  ⟨"Alligator weed", "Alligator Weed", "A", false⟩

/-- The end-to-end scenario's stubbed marketplace client: one fixed listing
for any query. -/
def stubClient : Client :=
  fun _ _ => Except.ok [⟨"eBay", "Alligator Weed Seeds", "$5.00", "http://example/1"⟩]

/-- C3: on the one-row table, empty Noxious Set and the stub client, a scan
with max items 1 and per-site cap 1 yields exactly one result row with the
record's metadata, `is_ccr = false` and the stub's listing fields, and the
final progress message reports "Found 1 listings.". -/
theorem end_to_end_scenario :
    (do_scan stubClient stubClient ENABLE_EBAY ENABLE_ETSY [alligatorRow] []
        ⟨1, 1⟩ ⟨"", none⟩).1 =
      [⟨"Alligator weed", "Alligator Weed", "A", false,
        "eBay", "Alligator Weed Seeds", "$5.00", "http://example/1"⟩] ∧
    (do_scan stubClient stubClient ENABLE_EBAY ENABLE_ETSY [alligatorRow] []
        ⟨1, 1⟩ ⟨"", none⟩).2.progress = "Done. Found 1 listings." ∧
    "Found 1 listings.".data <:+
      ((do_scan stubClient stubClient ENABLE_EBAY ENABLE_ETSY [alligatorRow] []
        ⟨1, 1⟩ ⟨"", none⟩).2.progress).data := by
  refine ⟨by decide, by decide, ⟨"Done. ".data, by decide⟩⟩

/-- If a string normalises to a whitespace-free, non-empty target, then
trimming and lowercasing it yields the same target. -/
theorem pyLower_pyStrip_of_norm_single {cell target : String}
    (hns : ∀ c ∈ target.data, isPySpace c = false)
    (hne : target.data ≠ [])
    (h : norm cell = target) : pyLower (pyStrip cell) = target := by
  have hd : normL cell.data = target.data := congrArg String.data h
  rw [normL_eq] at hd
  cases hsp : pySplit cell.data with
  | nil =>
    rw [hsp] at hd
    simp only [List.map_nil] at hd
    exact absurd hd.symm (by simpa [joinWords] using hne)
  | cons w ws2 =>
    cases ws2 with
    | nil =>
      rw [hsp] at hd
      simp only [List.map_cons, List.map_nil] at hd
      have hw : pyLowerL w = target.data := hd
      have hstrip : pyStripL cell.data = w := pyStripL_single_word hsp
      have hshow : pyLower (pyStrip cell) = (⟨pyLowerL (pyStripL cell.data)⟩ : String) := rfl
      rw [hshow, hstrip, hw]
    | cons x ws3 =>
      rw [hsp] at hd
      simp only [List.map_cons] at hd
      rw [joinWords_cons_cons] at hd
      have hmem : (' ' : Char) ∈ target.data := by
        rw [← hd]
        simp
      have hfalse := hns ' ' hmem
      rw [isPySpace_space] at hfalse
      cases hfalse

/-- Counterexample for C8 as stated: a data row duplicating the original
header text "Scientific Name" (the alias form, before renaming) is NOT
dropped — the loaded collection contains a record whose scientific-name cell
case-insensitively equals that header text. -/
theorem loader_header_alias_counterexample :
    ∃ rec ∈ load_ratings ⟨["Scientific Name", "Common Name", "CDFA Pest Rating",
        "CCR 4500 Noxious Weeds"],
      [["Scientific Name", "Common Name", "CDFA Pest Rating", "CCR 4500 Noxious Weeds"],
       ["Alligator weed", "Alligator Weed", "A", "no"]]⟩,
      pyLower rec.scientific_name = pyLower "Scientific Name" := by
  decide

/-- C8 (amended): the loader's filter compares each scientific-name cell,
trimmed and lowercased, against the canonical post-rename column name
"scientific_name" — so no loaded record's name lowercases to
"scientific_name", and "scientific_name" never enters the Noxious Set. -/
theorem loader_header_filter (t u : RawTable) :
    (∀ rec ∈ load_ratings t, pyLower rec.scientific_name ≠ "scientific_name") ∧
    "scientific_name" ∉ load_ccr_set u := by
  constructor
  · intro rec hrec
    unfold load_ratings at hrec
    rcases List.mem_map.mp hrec with ⟨r, hr, hrfl⟩
    unfold ratingsKeptRows at hr
    have hk := List.of_mem_filter hr
    unfold keepRow at hk
    simp only [Bool.not_eq_true', decide_eq_false_iff_not] at hk
    intro hcontra
    rw [← hrfl] at hcontra
    exact hk hcontra
  · intro hmem
    unfold load_ccr_set at hmem
    rcases List.mem_map.mp hmem with ⟨r, hr, hrfl⟩
    unfold ccrKeptRows at hr
    have hk := List.of_mem_filter hr
    unfold keepRow at hk
    simp only [Bool.not_eq_true', decide_eq_false_iff_not] at hk
    exact hk (pyLower_pyStrip_of_norm_single (by decide) (by decide) hrfl)

/-- Witness for C8 (amended), at a concrete loaded record of a concrete table
(whose duplicated underscore-form header row is dropped). -/
theorem loader_header_filter_witness :
    pyLower (⟨"Alligator weed", "Alligator Weed", "A", false⟩ :
      SpeciesRow).scientific_name ≠ "scientific_name" :=
  (loader_header_filter
    ⟨["scientific_name", "common_name", "rating", "is_ccr_flag"],
      [["scientific_name", "common_name", "rating", "is_ccr_flag"],
       ["Alligator weed", "Alligator Weed", "A", "no"]]⟩
    ⟨["Scientific Name", "Common Name"],
      [["scientific_name", "x"], ["Alligator weed", "y"]]⟩).1
    ⟨"Alligator weed", "Alligator Weed", "A", false⟩ (by decide)

end Weedr
